import Mathlib

/-!
Verification development for `parse_pool_metrics.py`, a parser that extracts
tabular resource-pool metrics from server log files.  The Python source is
shallowly embedded below: lines are modelled as `List Char`, the per-file
scan of `find_pool_statistics_sections` becomes a structurally recursive
function over the remaining lines (carrying the reversed prefix of already
scanned lines), and the CSV-writing `main` becomes a pure function returning
an explicit record of its observable effects.
-/

namespace PoolMetrics

/-- Python's whitespace class (ASCII part), as used by `str.strip`,
`str.split` and the regex `\s`. -/
def isWS (c : Char) : Bool :=
  c = ' ' || c = '\t' || c = '\n' || c = '\r' || c = '\x0b' || c = '\x0c'

/-- ASCII decimal digit, modelling the regex class `\d`. -/
def isDigit (c : Char) : Bool :=
  '0' ≤ c && c ≤ '9'

/-- Fueled worker for `pySplit`.  With fuel at least the length of the list it
computes Python's `str.split()` (split on whitespace runs, dropping empties). -/
def pySplitF : Nat → List Char → List (List Char)
  | 0, _ => []
  | _ + 1, [] => []
  | fuel + 1, c :: rest =>
    if isWS c then pySplitF fuel rest
    else (c :: rest.takeWhile (fun d => !isWS d)) :: pySplitF fuel (rest.dropWhile (fun d => !isWS d))

/-- Python `s.split()`: split on runs of whitespace, no empty tokens. -/
def pySplit (s : List Char) : List (List Char) :=
  pySplitF s.length s

/-- Is the first character of the list whitespace? -/
def headWS : List Char → Bool
  | [] => false
  | c :: _ => isWS c

/-- Fueled worker for `wideGapSplit`.  `acc` is the current token, reversed.
With fuel at least the length of the list it computes Python's
`re.split(r'\s{2,}', s)`: a maximal whitespace run of length at least two
separates tokens, a lone whitespace character stays inside its token. -/
def wgAuxF : Nat → List Char → List Char → List (List Char)
  | 0, acc, _ => [acc.reverse]
  | _ + 1, acc, [] => [acc.reverse]
  | fuel + 1, acc, c :: rest =>
    if isWS c && headWS rest then
      acc.reverse :: wgAuxF fuel [] (rest.dropWhile isWS)
    else wgAuxF fuel (c :: acc) rest

/-- Python `re.split(r'\s{2,}', s)` — the "wide-gap split". -/
def wideGapSplit (s : List Char) : List (List Char) :=
  wgAuxF s.length [] s

/-- Python `s.strip()`: remove leading and trailing whitespace. -/
def stripL (s : List Char) : List Char :=
  ((s.dropWhile isWS).reverse.dropWhile isWS).reverse

/-- One pool's statistics, as a record of raw text tokens
(`parse_pool_line`'s result dictionary). -/
structure PoolRec where
  pool_name : List Char
  active : List Char
  pending : List Char
  backpressure : List Char
  delayed : List Char
  shared : List Char
  stolen : List Char
  completed : List Char
  blocked : List Char
  all_time_blocked : List Char
deriving DecidableEq, Repr

/-- `parse_pool_line` from the source: wide-gap split the stripped line;
fewer than 6 whitespace-split parts or fewer than 6 wide-gap columns reject;
10 or more columns is the long form, 6–9 the short form with
backpressure/delayed/shared/stolen defaulted to `"0"`. -/
def parse_pool_line (line : List Char) : Option PoolRec :=
  let s := stripL line
  if (pySplit s).length < 6 then none
  else
    let columns := wideGapSplit s
    if columns.length < 6 then none
    else if 10 ≤ columns.length then
      some ⟨stripL (columns.getD 0 []), stripL (columns.getD 1 []), stripL (columns.getD 2 []),
            stripL (columns.getD 3 []), stripL (columns.getD 4 []), stripL (columns.getD 5 []),
            stripL (columns.getD 6 []), stripL (columns.getD 7 []), stripL (columns.getD 8 []),
            stripL (columns.getD 9 [])⟩
    else
      some ⟨stripL (columns.getD 0 []), stripL (columns.getD 1 []), stripL (columns.getD 2 []),
            ['0'], ['0'], ['0'], ['0'],
            stripL (columns.getD 3 []), stripL (columns.getD 4 []), stripL (columns.getD 5 [])⟩

/-- Does `hay` start with `pat`? -/
def startsWithL : List Char → List Char → Bool
  | _, [] => true
  | [], _ :: _ => false
  | c :: s, p :: ps => c == p && startsWithL s ps

/-- Substring containment (Python's `pat in hay`). -/
def containsSub : List Char → List Char → Bool
  | [], pat => pat.isEmpty
  | c :: rest, pat => startsWithL (c :: rest) pat || containsSub rest pat

/-- Does the timestamp pattern `\d{4}-\d{2}-\d{2} \d{2}:\d{2}:\d{2},\d{3}`
match at the very start of the list?  Returns the matched text. -/
def tsHere : List Char → Option (List Char)
  | a1 :: a2 :: a3 :: a4 :: '-' :: b1 :: b2 :: '-' :: c1 :: c2 :: ' ' ::
      d1 :: d2 :: ':' :: e1 :: e2 :: ':' :: f1 :: f2 :: ',' :: g1 :: g2 :: g3 :: _ =>
    if isDigit a1 && isDigit a2 && isDigit a3 && isDigit a4 && isDigit b1 && isDigit b2 &&
       isDigit c1 && isDigit c2 && isDigit d1 && isDigit d2 && isDigit e1 && isDigit e2 &&
       isDigit f1 && isDigit f2 && isDigit g1 && isDigit g2 && isDigit g3 then
      some [a1, a2, a3, a4, '-', b1, b2, '-', c1, c2, ' ',
            d1, d2, ':', e1, e2, ':', f1, f2, ',', g1, g2, g3]
    else none
  | _ => none

/-- `extract_timestamp` from the source: leftmost match of the fixed-width
timestamp pattern, or `none`. -/
def extract_timestamp : List Char → Option (List Char)
  | [] => none
  | c :: rest =>
    match tsHere (c :: rest) with
    | some t => some t
    | none => extract_timestamp rest

/-- The `"StatusLogger.java"` marker. -/
def marker : List Char := "StatusLogger.java".data

/-- A header line contains `"Pool Name"`, `"Active"` and `"Pending"`. -/
def isHeader (l : List Char) : Bool :=
  containsSub l "Pool Name".data && containsSub l "Active".data && containsSub l "Pending".data

/-- `re.match(r'^\d{4}-\d{2}-\d{2}', line)`: starts with a date token. -/
def startsDate : List Char → Bool
  | a1 :: a2 :: a3 :: a4 :: '-' :: b1 :: b2 :: '-' :: c1 :: c2 :: _ =>
    isDigit a1 && isDigit a2 && isDigit a3 && isDigit a4 &&
    isDigit b1 && isDigit b2 && isDigit c1 && isDigit c2
  | _ => false

/-- `re.match(r'^(INFO|WARN|ERROR|DEBUG)', line)`. -/
def startsLevel (l : List Char) : Bool :=
  startsWithL l "INFO".data || startsWithL l "WARN".data ||
  startsWithL l "ERROR".data || startsWithL l "DEBUG".data

/-- Scan-boundary test on a stripped line: empty, or a new log entry. -/
def stopLine (d : List Char) : Bool :=
  d.isEmpty || startsDate d || startsLevel d

/-- The forward timestamp scan: for each line (in order), if it contains the
`StatusLogger.java` marker, return `extract_timestamp` of it and stop; stop
with `none` on an empty line or a line starting a new log entry.  In
`find_pool_statistics_sections` this runs over at most the 9 lines at
indices `i+1 .. i+9`. -/
def tsForward : List (List Char) → Option (List Char)
  | [] => none
  | l :: rest =>
    let d := stripL l
    if containsSub d marker then extract_timestamp d
    else if stopLine d then none
    else tsForward rest

/-- The preceding-line timestamp check: if the line immediately before the
header (head of the reversed prefix) contains the marker, extract from it. -/
def tsPrev : List (List Char) → Option (List Char)
  | [] => none
  | p :: _ =>
    let d := stripL p
    if containsSub d marker then extract_timestamp d else none

/-- Timestamp resolution for a header: preceding line first, else the forward
scan over the next (up to) 9 lines.  `done` is the reversed list of lines
before the header, `rest` the lines after it. -/
def resolveTs (done rest : List (List Char)) : Option (List Char) :=
  match tsPrev done with
  | some t => some t
  | none => tsForward (rest.take 9)

/-- Forward data collection: parse consecutive lines as pool records,
stopping at the first empty line, new log entry, or unparseable line. -/
def collectForward : List (List Char) → List PoolRec
  | [] => []
  | l :: rest =>
    let d := stripL l
    if stopLine d then []
    else
      match parse_pool_line d with
      | some r => r :: collectForward rest
      | none => []

/-- Data collection for a header: forward from the line after it; if that
yields nothing, backward from the line before it, prepending each record so
the result keeps original file order (the backward scan walks `done`, which
is the reversed prefix, with the same boundary tests). -/
def collectData (done rest : List (List Char)) : List PoolRec :=
  let fwd := collectForward rest
  if fwd.isEmpty then (collectForward done).reverse else fwd

/-- The per-file scan of `find_pool_statistics_sections`.  `done` is the
reversed list of already scanned lines (so the current index is
`done.length`), the second argument the remaining lines.  Returns the
emitted sections and the diagnostics (file, 1-based line number) printed to
the error stream. -/
def findAux (fname : String) :
    List (List Char) → List (List Char) → List (List Char × List PoolRec) × List (String × Nat)
  | _, [] => ([], [])
  | done, l :: rest =>
    let res := findAux fname (l :: done) rest
    if isHeader (stripL l) then
      match resolveTs done rest with
      | none => (res.1, (fname, done.length + 1) :: res.2)
      | some t =>
        let data := collectData done rest
        if data.isEmpty then res else ((t, data) :: res.1, res.2)
    else res

/-- `find_pool_statistics_sections` on a file's lines: the emitted
`(timestamp, records)` sections together with the missing-timestamp
diagnostics. -/
def findSections (fname : String) (lines : List (List Char)) :
    List (List Char × List PoolRec) × List (String × Nat) :=
  findAux fname [] lines

/-- ASCII lowercasing of one character (Python `str.lower` on the log's
ASCII pool names). -/
def lowerC (c : Char) : Char :=
  if 'A' ≤ c && c ≤ 'Z' then Char.ofNat (c.toNat + 32) else c

/-- Python `s.lower()`. -/
def lowerL (s : List Char) : List Char := s.map lowerC

/-- `filter_pools` from the source: with no targets return the data
unchanged, else keep the records whose lowercased name is among the
lowercased targets. -/
def filter_pools (pool_data : List PoolRec) (target_pools : List (List Char)) : List PoolRec :=
  if target_pools.isEmpty then pool_data
  else pool_data.filter (fun p => (target_pools.map lowerL).contains (lowerL p.pool_name))

/-- Lexicographic order on character lists by code point — Python's `<=` on
strings, as used by `sorted`. -/
def lexLe : List Char → List Char → Bool
  | [], _ => true
  | _ :: _, [] => false
  | a :: as, b :: bs => if a < b then true else if a = b then lexLe as bs else false

/-- `lexLe` as a proposition, for Mathlib's sorting lemmas. -/
def lexLeP (a b : List Char) : Prop := lexLe a b = true

instance : DecidableRel lexLeP :=
  fun a b => inferInstanceAs (Decidable (lexLe a b = true))

/-- The sorted list of distinct pool names appearing in the filtered record
lists of all sections — `sorted(all_pool_names)` for the set built by
`main`'s pivot branch. -/
def allPoolNames (sections : List (List Char × List PoolRec))
    (targets : List (List Char)) : List (List Char) :=
  (((sections.map (fun sec => (filter_pools sec.2 targets).map PoolRec.pool_name)).flatten).dedup).insertionSort lexLeP

/-- Lookup in the dictionary `{pool['pool_name']: pool for pool in fp}`:
built by iterating in order, so a later record with the same name
overwrites an earlier one. -/
def lookupLastRec (fp : List PoolRec) (n : List Char) : Option PoolRec :=
  fp.foldl (fun acc r => if r.pool_name = n then some r else acc) none

/-- `column_mapping`: metric column name to record field. -/
def fieldOf (p : PoolRec) (c : String) : List Char :=
  if c = "Active" then p.active
  else if c = "Pending" then p.pending
  else if c = "Backpressure" then p.backpressure
  else if c = "Delayed" then p.delayed
  else if c = "Shared" then p.shared
  else if c = "Stolen" then p.stolen
  else if c = "Completed" then p.completed
  else if c = "Blocked" then p.blocked
  else if c = "All_Time_Blocked" then p.all_time_blocked
  else []

/-- The cells a pivot row holds for one pool name: the selected metric values
of the (last) record of that name, or `N/A` placeholders if the name has no
record in this section's filtered list. -/
def segmentFor (fp : List PoolRec) (cols : List String) (n : List Char) : List (List Char) :=
  match lookupLastRec fp n with
  | some p => cols.map (fun c => fieldOf p c)
  | none => List.replicate cols.length "N/A".data

/-- One pivot-mode data row: the section's timestamp followed by, for every
name in `names` in order, that name's cells. -/
def pivotRow (names : List (List Char)) (cols : List String) (targets : List (List Char))
    (sec : List Char × List PoolRec) : List (List Char) :=
  sec.1 :: (names.map (segmentFor (filter_pools sec.2 targets) cols)).flatten

/-- All pivot-mode data rows: one per section. -/
def pivotRows (sections : List (List Char × List PoolRec)) (targets : List (List Char))
    (cols : List String) : List (List (List Char)) :=
  sections.map (pivotRow (allPoolNames sections targets) cols targets)

/-- The pivot-mode header row: `timestamp`, then `"<name>-<MetricName>"` for
every matched name (sorted) and selected column. -/
def pivotHeader (sections : List (List Char × List PoolRec)) (targets : List (List Char))
    (cols : List String) : List (List Char) :=
  "timestamp".data ::
    ((allPoolNames sections targets).map (fun n => cols.map (fun c => n ++ ('-' :: c.data)))).flatten

/-- The row-mode header row. -/
def rowHeader (cols : List String) : List (List Char) :=
  "timestamp".data :: "pool_name".data :: cols.map (fun c => lowerL c.data)

/-- The row-mode data rows: one per (section, record) pair. -/
def rowModeRows (sections : List (List Char × List PoolRec)) (cols : List String) :
    List (List (List Char)) :=
  (sections.map (fun sec => sec.2.map (fun p => sec.1 :: p.pool_name :: cols.map (fieldOf p)))).flatten

/-- The observable outcome of `main` after scanning: exit code, whether the
output CSV file was created (opened for writing), the rows written to it
(header row first), and the messages printed to the error stream. -/
structure RunResult where
  exitCode : Nat
  outputCreated : Bool
  written : List (List (List Char))
  errs : List String
deriving DecidableEq, Repr

/-- `main` after argument parsing and scanning, as a function of the target
pool names, the (already validated) selected metric columns, and the
concatenated sections of all input files.  Faithful to the source's order of
effects: the no-sections check happens before the output file is opened; the
empty-pivot-match check happens after. -/
def mainModel (targets : List (List Char)) (cols : List String)
    (allSections : List (List Char × List PoolRec)) : RunResult :=
  if allSections.isEmpty then
    ⟨1, false, [], ["No pool statistics found in the provided files."]⟩
  else if targets.isEmpty then
    ⟨0, true, rowHeader cols :: rowModeRows allSections cols, []⟩
  else if (allPoolNames allSections targets).isEmpty then
    ⟨1, true, [], ["No matching pools found for the specified filters."]⟩
  else
    ⟨0, true, pivotHeader allSections targets cols :: pivotRows allSections targets cols, []⟩

/-- The last character of the list, if any, is not whitespace (true of the
output of `stripL`). -/
def noTrailWS : List Char → Bool
  | [] => true
  | [c] => !isWS c
  | _ :: d :: rest => noTrailWS (d :: rest)

/-- Some character of the list is not whitespace. -/
def hasNonWS (l : List Char) : Bool := l.any (fun c => !isWS c)

/-- The list is nonempty and its first character is not whitespace. -/
def headNonWS : List Char → Bool
  | [] => false
  | c :: _ => !isWS c

/-- A header line of the log format. -/
def hdrLine : List Char := "Pool Name  Active  Pending".data

/-- A short-form data line. -/
def fooLine : List Char := "Foo  1  2  3  4  5".data

/-- Another short-form data line. -/
def barLine : List Char := "Bar  9  8  7  6  5".data

/-- A `StatusLogger.java` log line carrying a timestamp. -/
def slLine : List Char := "INFO  x  StatusLogger.java  2025-10-03 10:08:32,368".data

/-- The timestamp inside `slLine`. -/
def tsVal : List Char := "2025-10-03 10:08:32,368".data

/-- The record parsed from `fooLine`. -/
def fooRec : PoolRec :=
  ⟨"Foo".data, "1".data, "2".data, ['0'], ['0'], ['0'], ['0'], "3".data, "4".data, "5".data⟩

/-- The record parsed from `barLine`. -/
def barRec : PoolRec :=
  ⟨"Bar".data, "9".data, "8".data, ['0'], ['0'], ['0'], ['0'], "7".data, "6".data, "5".data⟩

/-- A log whose single section repeats the same pool name twice. -/
def exDup : List (List Char) := [slLine, hdrLine, fooLine, fooLine]

/-- A log whose only `StatusLogger.java` line is the 10th line after the
header, with nine unremarkable lines in between. -/
def exWin : List (List Char) := hdrLine :: (List.replicate 9 "x".data ++ [slLine])

/-- A one-record section. -/
def secFoo : List Char × List PoolRec := (tsVal, [fooRec])

/-- A `GossipStage` record. -/
def gsRecA : PoolRec :=
  ⟨"GossipStage".data, "1".data, "2".data, ['0'], ['0'], ['0'], ['0'], "3".data, "4".data, "5".data⟩

/-- A second `GossipStage` record with different metric values. -/
def gsRecB : PoolRec :=
  ⟨"GossipStage".data, "2".data, "9".data, ['0'], ['0'], ['0'], ['0'], "3".data, "4".data, "5".data⟩

/-! ### Lemmas about the two split functions -/

lemma length_dropWhile_le (p : Char → Bool) (l : List Char) :
    (l.dropWhile p).length ≤ l.length := by
  induction l with
  | nil => simp
  | cons c rest ih =>
    rw [List.dropWhile_cons]
    split
    · exact ih.trans (Nat.le_succ _)
    · exact Nat.le_refl _

lemma pySplitF_congr : ∀ (f g : Nat) (s : List Char), s.length ≤ f → s.length ≤ g →
    pySplitF f s = pySplitF g s := by
  intro f
  induction f with
  | zero =>
    intro g s hf _
    have hs : s = [] := List.length_eq_zero.mp (Nat.le_zero.mp hf)
    subst hs
    cases g <;> rfl
  | succ f ih =>
    intro g s hf hg
    cases s with
    | nil => cases g <;> rfl
    | cons c rest =>
      cases g with
      | zero => simp at hg
      | succ g =>
        have hf' : rest.length ≤ f := by simpa using hf
        have hg' : rest.length ≤ g := by simpa using hg
        simp only [pySplitF]
        by_cases h : isWS c
        · rw [if_pos h, if_pos h]
          exact ih g rest hf' hg'
        · rw [if_neg h, if_neg h]
          congr 1
          exact ih g _ ((length_dropWhile_le _ _).trans hf') ((length_dropWhile_le _ _).trans hg')

lemma pySplit_cons_ws (c : Char) (rest : List Char) (h : isWS c = true) :
    pySplit (c :: rest) = pySplit rest := by
  show pySplitF (rest.length + 1) (c :: rest) = pySplit rest
  simp only [pySplitF, h, if_true]
  rfl

lemma pySplit_cons_not_ws (c : Char) (rest : List Char) (h : isWS c = false) :
    pySplit (c :: rest) =
      (c :: rest.takeWhile (fun d => !isWS d)) :: pySplit (rest.dropWhile (fun d => !isWS d)) := by
  show pySplitF (rest.length + 1) (c :: rest) = _
  simp only [pySplitF, h, Bool.false_eq_true, if_false]
  congr 1
  exact pySplitF_congr _ _ _ (length_dropWhile_le _ _) (Nat.le_refl _)

lemma pySplit_dropWhile_ws : ∀ s : List Char, pySplit (s.dropWhile isWS) = pySplit s := by
  intro s
  induction s with
  | nil => rfl
  | cons c rest ih =>
    rw [List.dropWhile_cons]
    by_cases h : isWS c
    · rw [if_pos h, ih, pySplit_cons_ws c rest h]
    · rw [if_neg h]

lemma pySplit_singleton_not_ws (c : Char) (h : isWS c = false) :
    pySplit [c] = [[c]] := by
  rw [pySplit_cons_not_ws c [] h]
  rfl

lemma pySplit_len_two_not_ws (c d : Char) (r2 : List Char)
    (hc : isWS c = false) (hd : isWS d = false) :
    (pySplit (c :: d :: r2)).length = (pySplit (d :: r2)).length := by
  rw [pySplit_cons_not_ws c _ hc, pySplit_cons_not_ws d _ hd]
  simp only [List.length_cons, Nat.succ.injEq]
  have : (d :: r2).dropWhile (fun x => !isWS x) = r2.dropWhile (fun x => !isWS x) := by
    rw [List.dropWhile_cons, if_pos (by simp [hd])]
  rw [this]

lemma pySplit_len_ws_head (c : Char) (rest : List Char) (hc : isWS c = false)
    (hrest : headWS rest = true) :
    (pySplit (c :: rest)).length = (pySplit rest).length + 1 := by
  cases rest with
  | nil => simp [headWS] at hrest
  | cons d r2 =>
    have hd : isWS d = true := hrest
    rw [pySplit_cons_not_ws c _ hc]
    have : (d :: r2).dropWhile (fun x => !isWS x) = d :: r2 := by
      rw [List.dropWhile_cons, if_neg (by simp [hd])]
    rw [this]
    simp

lemma pySplit_length_le_cons (c : Char) (rest : List Char) (hc : isWS c = false) :
    (pySplit rest).length ≤ (pySplit (c :: rest)).length := by
  cases rest with
  | nil =>
    rw [show pySplit ([] : List Char) = [] from rfl, pySplit_singleton_not_ws c hc]
    simp
  | cons d r2 =>
    by_cases hd : isWS d
    · rw [pySplit_len_ws_head c _ hc (show headWS (d :: r2) = true from hd)]
      omega
    · rw [pySplit_len_two_not_ws c d r2 hc (by simpa using hd)]

/-! ### Whitespace-shape lemmas -/

lemma dropWhile_head_not (p : Char → Bool) :
    ∀ (l : List Char) (c : Char) (t : List Char), l.dropWhile p = c :: t → p c = false := by
  intro l
  induction l with
  | nil => intro c t h; simp at h
  | cons a rest ih =>
    intro c t h
    rw [List.dropWhile_cons] at h
    by_cases ha : p a
    · rw [if_pos ha] at h
      exact ih c t h
    · rw [if_neg ha] at h
      injection h with h1 _
      subst h1
      simpa using ha

lemma noTrail_dropWhile (p : Char → Bool) :
    ∀ l : List Char, noTrailWS l = true → noTrailWS (l.dropWhile p) = true := by
  intro l
  induction l with
  | nil => intro h; exact h
  | cons a rest ih =>
    intro h
    rw [List.dropWhile_cons]
    by_cases ha : p a
    · rw [if_pos ha]
      apply ih
      cases rest with
      | nil => rfl
      | cons d r2 => exact h
    · rw [if_neg ha]
      exact h

lemma dropWhile_ne_nil_of_noTrail :
    ∀ l : List Char, noTrailWS l = true → l ≠ [] → l.dropWhile isWS ≠ [] := by
  intro l
  induction l with
  | nil => intro _ h; exact absurd rfl h
  | cons a rest ih =>
    intro h _
    rw [List.dropWhile_cons]
    by_cases ha : isWS a
    · rw [if_pos ha]
      cases rest with
      | nil => simp [noTrailWS, ha] at h
      | cons d r2 => exact ih h (by simp)
    · rw [if_neg ha]
      simp

lemma headNonWS_dropWhile (l : List Char) (h : l.dropWhile isWS ≠ []) :
    headNonWS (l.dropWhile isWS) = true := by
  cases hd : l.dropWhile isWS with
  | nil => exact absurd hd h
  | cons c t =>
    have := dropWhile_head_not isWS l c t hd
    simp [headNonWS, this]

/-- Core counting argument: on a list with no trailing whitespace, the
wide-gap split never produces more tokens than the whitespace split, as long
as either the pending token already holds a non-whitespace character or the
list starts with one.  (Each wide-gap token of a stripped line contains a
non-whitespace character, hence at least one whitespace-split token.) -/
lemma wg_key : ∀ (n : Nat) (s : List Char) (f : Nat) (acc : List Char),
    s.length ≤ n → s.length ≤ f → noTrailWS s = true →
    (hasNonWS acc = true → (wgAuxF f acc s).length ≤ (pySplit s).length + 1) ∧
    (headNonWS s = true → (wgAuxF f acc s).length ≤ (pySplit s).length) := by
  intro n
  induction n with
  | zero =>
    intro s f acc hn _ _
    have hs : s = [] := List.length_eq_zero.mp (Nat.le_zero.mp hn)
    subst hs
    constructor
    · intro _
      cases f <;> simp [wgAuxF, pySplit, pySplitF]
    · intro h
      simp [headNonWS] at h
  | succ n ih =>
    intro s f acc hn hf hnt
    cases s with
    | nil =>
      constructor
      · intro _
        cases f <;> simp [wgAuxF, pySplit, pySplitF]
      · intro h
        simp [headNonWS] at h
    | cons c rest =>
      obtain ⟨f', rfl⟩ : ∃ f', f = f' + 1 := ⟨f - 1, by simp at hf; omega⟩
      have hrestf : rest.length ≤ f' := by simpa using hf
      have hrestn : rest.length ≤ n := by simp at hn; omega
      by_cases hsep : (isWS c && headWS rest) = true
      · obtain ⟨hc, hrw⟩ : isWS c = true ∧ headWS rest = true := by simpa using hsep
        have hrne : rest ≠ [] := by
          cases rest with
          | nil => simp [headWS] at hrw
          | cons d r2 => simp
        have hntr : noTrailWS rest = true := by
          cases rest with
          | nil => exact absurd rfl hrne
          | cons d r2 => exact hnt
        have h1 : rest.dropWhile isWS ≠ [] := dropWhile_ne_nil_of_noTrail rest hntr hrne
        have h2 : headNonWS (rest.dropWhile isWS) = true := headNonWS_dropWhile rest h1
        have h3 : noTrailWS (rest.dropWhile isWS) = true := noTrail_dropWhile isWS rest hntr
        have hlen1 : (rest.dropWhile isWS).length ≤ n := (length_dropWhile_le _ _).trans hrestn
        have hlen2 : (rest.dropWhile isWS).length ≤ f' := (length_dropWhile_le _ _).trans hrestf
        have hB := (ih (rest.dropWhile isWS) f' [] hlen1 hlen2 h3).2 h2
        have hunf : wgAuxF (f' + 1) acc (c :: rest) =
            acc.reverse :: wgAuxF f' [] (rest.dropWhile isWS) := by
          simp only [wgAuxF]
          rw [if_pos hsep]
        have hps : pySplit (c :: rest) = pySplit (rest.dropWhile isWS) := by
          rw [pySplit_cons_ws c rest hc, ← pySplit_dropWhile_ws rest]
        constructor
        · intro _
          rw [hunf, hps]
          simp only [List.length_cons]
          omega
        · intro hhd
          simp [headNonWS, hc] at hhd
      · have hunf : wgAuxF (f' + 1) acc (c :: rest) = wgAuxF f' (c :: acc) rest := by
          simp only [wgAuxF]
          rw [if_neg hsep]
        by_cases hc : isWS c = true
        · have hrw : headWS rest = false := by
            cases hw : headWS rest
            · rfl
            · exact absurd (by rw [hc, hw]; rfl) hsep
          cases rest with
          | nil =>
            exfalso
            simp [noTrailWS, hc] at hnt
          | cons d r2 =>
            have hd : isWS d = false := by simpa [headWS] using hrw
            have hhd2 : headNonWS (d :: r2) = true := by simp [headNonWS, hd]
            have hBrest := (ih (d :: r2) f' (c :: acc) hrestn hrestf hnt).2 hhd2
            constructor
            · intro _
              rw [hunf, pySplit_cons_ws c _ hc]
              omega
            · intro hhd
              simp [headNonWS, hc] at hhd
        · have hc' : isWS c = false := by simpa using hc
          have hacc' : hasNonWS (c :: acc) = true := by simp [hasNonWS, hc']
          have key2 : (wgAuxF f' (c :: acc) rest).length ≤ (pySplit (c :: rest)).length := by
            cases rest with
            | nil =>
              rw [pySplit_singleton_not_ws c hc']
              cases f' <;> simp [wgAuxF]
            | cons d r2 =>
              by_cases hd : isWS d = true
              · have hA := (ih (d :: r2) f' (c :: acc) hrestn hrestf hnt).1 hacc'
                rw [pySplit_len_ws_head c _ hc' (show headWS (d :: r2) = true from hd)]
                omega
              · have hd' : isWS d = false := by simpa using hd
                have hB2 := (ih (d :: r2) f' (c :: acc) hrestn hrestf hnt).2
                  (by simp [headNonWS, hd'])
                rw [pySplit_len_two_not_ws c d r2 hc' hd']
                exact hB2
          constructor
          · intro _
            rw [hunf]
            exact key2.trans (Nat.le_succ _)
          · intro _
            rw [hunf]
            exact key2

lemma wideGap_length_le (t : List Char) (hnt : noTrailWS t = true) (hh : headNonWS t = true) :
    (wideGapSplit t).length ≤ (pySplit t).length :=
  (wg_key t.length t t.length [] (Nat.le_refl _) (Nat.le_refl _) hnt).2 hh

lemma noTrail_of_getLast : ∀ l : List Char,
    (∀ c, l.getLast? = some c → isWS c = false) → noTrailWS l = true := by
  intro l
  induction l with
  | nil => intro _; rfl
  | cons a rest ih =>
    intro h
    cases rest with
    | nil =>
      have := h a (by simp)
      simp [noTrailWS, this]
    | cons d r2 =>
      show noTrailWS (d :: r2) = true
      apply ih
      intro c hc
      apply h
      rw [List.getLast?_cons_cons]
      exact hc

lemma stripL_noTrail (s : List Char) : noTrailWS (stripL s) = true := by
  apply noTrail_of_getLast
  intro c hc
  unfold stripL at hc
  cases hv : (s.dropWhile isWS).reverse.dropWhile isWS with
  | nil => rw [hv] at hc; simp at hc
  | cons b t =>
    rw [hv, show (b :: t).reverse = t.reverse ++ [b] from by simp,
      List.getLast?_concat] at hc
    obtain rfl : b = c := by injection hc
    exact dropWhile_head_not isWS _ b t hv

lemma stripL_headNonWS (s : List Char) (h : stripL s ≠ []) :
    headNonWS (stripL s) = true := by
  unfold stripL at h ⊢
  cases hv : ((s.dropWhile isWS).reverse.dropWhile isWS).reverse with
  | nil => exact absurd hv h
  | cons b t =>
    have hurev : s.dropWhile isWS = b :: (t ++ ((s.dropWhile isWS).reverse.takeWhile isWS).reverse) := by
      have h2 := congrArg List.reverse
        (List.takeWhile_append_dropWhile isWS (s.dropWhile isWS).reverse)
      rw [List.reverse_append, List.reverse_reverse] at h2
      rw [show ((s.dropWhile isWS).reverse.dropWhile isWS).reverse = b :: t from hv] at h2
      simpa using h2.symm
    have hb : isWS b = false := dropWhile_head_not isWS s b _ hurev
    simp [headNonWS, hb]

/-! ### Lemmas about the section locator -/

lemma findAux_nil (fname : String) (done : List (List Char)) :
    findAux fname done [] = ([], []) := rfl

lemma findAux_cons_not_header (fname : String) (done : List (List Char)) (l : List Char)
    (rest : List (List Char)) (h : isHeader (stripL l) = false) :
    findAux fname done (l :: rest) = findAux fname (l :: done) rest := by
  simp [findAux, h]

lemma findAux_cons_header_none (fname : String) (done : List (List Char)) (l : List Char)
    (rest : List (List Char)) (hh : isHeader (stripL l) = true)
    (hts : resolveTs done rest = none) :
    findAux fname done (l :: rest) =
      ((findAux fname (l :: done) rest).1,
        (fname, done.length + 1) :: (findAux fname (l :: done) rest).2) := by
  simp [findAux, hh, hts]

lemma findAux_cons_header_some (fname : String) (done : List (List Char)) (l : List Char)
    (rest : List (List Char)) (t : List Char) (hh : isHeader (stripL l) = true)
    (hts : resolveTs done rest = some t) (hdata : collectData done rest ≠ []) :
    findAux fname done (l :: rest) =
      ((t, collectData done rest) :: (findAux fname (l :: done) rest).1,
        (findAux fname (l :: done) rest).2) := by
  have hde : (collectData done rest).isEmpty = false := by
    cases hcd : collectData done rest with
    | nil => exact absurd hcd hdata
    | cons a as => rfl
  simp [findAux, hh, hts, hde]

lemma findAux_cons_header_nodata (fname : String) (done : List (List Char)) (l : List Char)
    (rest : List (List Char)) (t : List Char) (hh : isHeader (stripL l) = true)
    (hts : resolveTs done rest = some t) (hdata : collectData done rest = []) :
    findAux fname done (l :: rest) = findAux fname (l :: done) rest := by
  simp [findAux, hh, hts, hdata]

lemma findAux_append_not_header (fname : String) :
    ∀ (ds done rest : List (List Char)), (∀ d ∈ ds, isHeader (stripL d) = false) →
      findAux fname done (ds ++ rest) = findAux fname (ds.reverse ++ done) rest := by
  intro ds
  induction ds with
  | nil => intro done rest _; simp
  | cons a as ih =>
    intro done rest h
    rw [List.cons_append, findAux_cons_not_header fname done a _ (h a (by simp)),
      ih (a :: done) rest (fun d hd => h d (by simp [hd]))]
    simp

lemma findAux_sections_ne (fname : String) :
    ∀ (rest done : List (List Char)) (sec : List Char × List PoolRec),
      sec ∈ (findAux fname done rest).1 → sec.2 ≠ [] := by
  intro rest
  induction rest with
  | nil => intro done sec h; simp [findAux_nil] at h
  | cons l rs ih =>
    intro done sec h
    by_cases hh : isHeader (stripL l) = true
    · cases hts : resolveTs done rs with
      | none =>
        rw [findAux_cons_header_none fname done l rs hh hts] at h
        exact ih (l :: done) sec h
      | some t =>
        cases hcd : collectData done rs with
        | nil =>
          rw [findAux_cons_header_nodata fname done l rs t hh hts hcd] at h
          exact ih (l :: done) sec h
        | cons r rsx =>
          have hne : collectData done rs ≠ [] := by rw [hcd]; simp
          rw [findAux_cons_header_some fname done l rs t hh hts hne] at h
          rcases List.mem_cons.mp h with h1 | h1
          · subst h1
            simp [hcd]
          · exact ih (l :: done) sec h1
    · rw [findAux_cons_not_header fname done l rs (by simpa using hh)] at h
      exact ih (l :: done) sec h

lemma collectForward_all : ∀ L : List (List Char),
    (∀ d ∈ L, stopLine (stripL d) = false ∧ (parse_pool_line (stripL d)).isSome = true) →
    collectForward L = L.filterMap (fun d => parse_pool_line (stripL d)) := by
  intro L
  induction L with
  | nil => intro _; rfl
  | cons l rs ih =>
    intro h
    obtain ⟨hstop, hsome⟩ := h l (by simp)
    obtain ⟨r, hr⟩ := Option.isSome_iff_exists.mp hsome
    simp only [collectForward, hstop, Bool.false_eq_true, if_false, hr,
      List.filterMap_cons]
    rw [ih (fun d hd => h d (by simp [hd]))]

lemma filterMap_parse_length : ∀ L : List (List Char),
    (∀ d ∈ L, (parse_pool_line (stripL d)).isSome = true) →
    (L.filterMap (fun d => parse_pool_line (stripL d))).length = L.length := by
  intro L
  induction L with
  | nil => intro _; rfl
  | cons l rs ih =>
    intro h
    obtain ⟨r, hr⟩ := Option.isSome_iff_exists.mp (h l (by simp))
    simp only [List.filterMap_cons, hr, List.length_cons]
    rw [ih (fun d hd => h d (by simp [hd]))]

lemma filterMap_parse_reverse : ∀ L : List (List Char),
    L.reverse.filterMap (fun d => parse_pool_line (stripL d)) =
      (L.filterMap (fun d => parse_pool_line (stripL d))).reverse := by
  intro L
  induction L with
  | nil => rfl
  | cons l rs ih =>
    cases hfl : parse_pool_line (stripL l) <;>
      simp [List.filterMap_append, ih, List.filterMap_cons, hfl]

/-! ### Lemmas about the pivot projection -/

lemma foldl_lookup_none : ∀ (fp : List PoolRec) (n : List Char) (acc : Option PoolRec),
    (∀ r ∈ fp, r.pool_name ≠ n) →
    fp.foldl (fun acc r => if r.pool_name = n then some r else acc) acc = acc := by
  intro fp
  induction fp with
  | nil => intro n acc _; rfl
  | cons r rs ih =>
    intro n acc h
    rw [List.foldl_cons, if_neg (h r (by simp))]
    exact ih n acc (fun x hx => h x (by simp [hx]))

lemma lookupLastRec_none (fp : List PoolRec) (n : List Char)
    (h : ∀ r ∈ fp, r.pool_name ≠ n) : lookupLastRec fp n = none :=
  foldl_lookup_none fp n none h

lemma lookupLastRec_last (xs ys : List PoolRec) (r : PoolRec) (n : List Char)
    (hr : r.pool_name = n) (hys : ∀ x ∈ ys, x.pool_name ≠ n) :
    lookupLastRec (xs ++ r :: ys) n = some r := by
  unfold lookupLastRec
  rw [List.foldl_append, List.foldl_cons, if_pos hr]
  exact foldl_lookup_none ys n (some r) hys

lemma segmentFor_absent (fp : List PoolRec) (cols : List String) (n : List Char)
    (h : ∀ r ∈ fp, r.pool_name ≠ n) :
    segmentFor fp cols n = List.replicate cols.length "N/A".data := by
  unfold segmentFor
  rw [lookupLastRec_none fp n h]

lemma lexLe_total : ∀ a b : List Char, lexLe a b = true ∨ lexLe b a = true := by
  intro a
  induction a with
  | nil => intro b; left; rfl
  | cons x xs ih =>
    intro b
    cases b with
    | nil => right; rfl
    | cons y ys =>
      show (if x < y then true else if x = y then lexLe xs ys else false) = true ∨
        (if y < x then true else if y = x then lexLe ys xs else false) = true
      rcases lt_trichotomy x y with h | h | h
      · left
        rw [if_pos h]
      · subst h
        rcases ih ys with h2 | h2
        · left
          rw [if_neg (lt_irrefl x), if_pos rfl]
          exact h2
        · right
          rw [if_neg (lt_irrefl x), if_pos rfl]
          exact h2
      · right
        rw [if_pos h]

lemma lexLe_trans : ∀ a b c : List Char, lexLe a b = true → lexLe b c = true →
    lexLe a c = true := by
  intro a
  induction a with
  | nil => intro b c _ _; rfl
  | cons x xs ih =>
    intro b c hab hbc
    cases b with
    | nil => simp [lexLe] at hab
    | cons y ys =>
      cases c with
      | nil => simp [lexLe] at hbc
      | cons z zs =>
        show (if x < z then true else if x = z then lexLe xs zs else false) = true
        have hab' : (if x < y then true else if x = y then lexLe xs ys else false) = true := hab
        have hbc' : (if y < z then true else if y = z then lexLe ys zs else false) = true := hbc
        by_cases hxy : x < y
        · by_cases hyz : y < z
          · rw [if_pos (hxy.trans hyz)]
          · rw [if_neg hyz] at hbc'
            by_cases hyz2 : y = z
            · subst hyz2
              rw [if_pos hxy]
            · rw [if_neg hyz2] at hbc'
              exact absurd hbc' (by simp)
        · rw [if_neg hxy] at hab'
          by_cases hxy2 : x = y
          · subst hxy2
            rw [if_pos rfl] at hab'
            by_cases hxz : x < z
            · rw [if_pos hxz]
            · rw [if_neg hxz] at hbc' ⊢
              by_cases hxz2 : x = z
              · subst hxz2
                rw [if_pos rfl] at hbc' ⊢
                exact ih ys zs hab' hbc'
              · rw [if_neg hxz2] at hbc'
                exact absurd hbc' (by simp)
          · rw [if_neg hxy2] at hab'
            exact absurd hab' (by simp)

instance : IsTotal (List Char) lexLeP := ⟨lexLe_total⟩

instance : IsTrans (List Char) lexLeP := ⟨fun a b c => lexLe_trans a b c⟩

lemma allPoolNames_sorted (sections : List (List Char × List PoolRec))
    (targets : List (List Char)) : List.Sorted lexLeP (allPoolNames sections targets) :=
  List.sorted_insertionSort lexLeP _

lemma allPoolNames_perm (sections : List (List Char × List PoolRec))
    (targets : List (List Char)) :
    (allPoolNames sections targets).Perm
      (((sections.map (fun sec => (filter_pools sec.2 targets).map PoolRec.pool_name)).flatten).dedup) :=
  List.perm_insertionSort lexLeP _

lemma allPoolNames_nodup (sections : List (List Char × List PoolRec))
    (targets : List (List Char)) : (allPoolNames sections targets).Nodup :=
  (allPoolNames_perm sections targets).nodup_iff.mpr (List.nodup_dedup _)

lemma allPoolNames_mem (sections : List (List Char × List PoolRec))
    (targets : List (List Char)) (n : List Char) :
    n ∈ allPoolNames sections targets ↔
      ∃ sec ∈ sections, ∃ r ∈ filter_pools sec.2 targets, r.pool_name = n := by
  rw [(allPoolNames_perm sections targets).mem_iff, List.mem_dedup, List.mem_flatten]
  constructor
  · rintro ⟨L, hL, hnL⟩
    obtain ⟨sec, hsec, rfl⟩ := List.mem_map.mp hL
    obtain ⟨r, hr, hrn⟩ := List.mem_map.mp hnL
    exact ⟨sec, hsec, r, hr, hrn⟩
  · rintro ⟨sec, hsec, r, hr, hrn⟩
    exact ⟨_, List.mem_map.mpr ⟨sec, hsec, rfl⟩, List.mem_map.mpr ⟨r, hr, hrn⟩⟩

/-! ### The claims -/

/-- Claim C1 (counterexample): with a pool-name filter that matches zero
names across every section, the run does fail with exit code 1 and a
diagnostic — but the output file HAS been created (it is opened before the
empty-match check), refuting "no output file is produced". -/
theorem claim_C1_counterexample :
    (["Bar".data] : List (List Char)) ≠ [] ∧
    allPoolNames [secFoo] ["Bar".data] = [] ∧
    (mainModel ["Bar".data] ["Active"] [secFoo]).exitCode = 1 ∧
    (mainModel ["Bar".data] ["Active"] [secFoo]).errs =
      ["No matching pools found for the specified filters."] ∧
    (mainModel ["Bar".data] ["Active"] [secFoo]).outputCreated = true := by
  decide

/-- Claim C1 (amended): if a pool-name filter is supplied and, after
filtering, zero pool names match across every section, the program
terminates with a failure (exit code 1, diagnostic on the error stream) and
writes no rows — but the (empty) output file has already been created,
since the file is opened before the check. -/
theorem claim_C1 (targets : List (List Char)) (cols : List String)
    (sections : List (List Char × List PoolRec))
    (hsec : sections ≠ []) (htgt : targets ≠ [])
    (hmatch : allPoolNames sections targets = []) :
    mainModel targets cols sections =
      ⟨1, true, [], ["No matching pools found for the specified filters."]⟩ := by
  have h1 : sections.isEmpty = false := by
    cases sections with
    | nil => exact absurd rfl hsec
    | cons a b => rfl
  have h2 : targets.isEmpty = false := by
    cases targets with
    | nil => exact absurd rfl htgt
    | cons a b => rfl
  have h3 : (allPoolNames sections targets).isEmpty = true := by rw [hmatch]; rfl
  simp [mainModel, h1, h2, h3]

/-- Claim C1 (witness). -/
theorem claim_C1_witness :
    mainModel ["Bar".data] ["Active"] [secFoo] =
      ⟨1, true, [], ["No matching pools found for the specified filters."]⟩ :=
  claim_C1 ["Bar".data] ["Active"] [secFoo] (by decide) (by decide) (by decide)

/-- Claim C2 (counterexample): in `exWin` the 10th line after the header
(index 10) contains the `StatusLogger.java` marker with a timestamp, yet the
locator reports a missing timestamp and emits no section — so the forward
scan does NOT cover all 10 lines following the header. -/
theorem claim_C2_counterexample :
    exWin.length = 11 ∧
    isHeader (stripL (exWin.getD 0 [])) = true ∧
    containsSub (stripL (exWin.getD 10 [])) marker = true ∧
    extract_timestamp (stripL (exWin.getD 10 [])) = some tsVal ∧
    findSections "f" exWin = ([], [("f", 1)]) := by
  decide

/-- Claim C2 (amended): when the preceding line yields no timestamp, the
locator scans up to 9 (not 10) lines forward from `i+1`, i.e. lines
`i+1 .. i+9`: timestamp resolution only ever reads the first 9 lines after
the header; on each scanned line, a line containing `StatusLogger.java` has
the timestamp extracted and stops the scan, and the scan aborts early on an
empty line or a line beginning a new log entry. -/
theorem claim_C2 :
    (∀ (done rest : List (List Char)), resolveTs done rest = resolveTs done (rest.take 9)) ∧
    (∀ (l : List Char) (rest : List (List Char)),
      tsForward (l :: rest) =
        if containsSub (stripL l) marker then extract_timestamp (stripL l)
        else if stopLine (stripL l) then none
        else tsForward rest) := by
  constructor
  · intro done rest
    simp [resolveTs, List.take_take]
  · intro l rest
    rfl

/-- Claim C3 (counterexample): a section produced from `exDup` repeats the
pool name `Foo`, refuting "pool_name is unique within a section". -/
theorem claim_C3_counterexample :
    ¬ ∀ sec ∈ (findSections "log" exDup).1, (sec.2.map PoolRec.pool_name).Nodup := by
  decide

/-- Claim C3 (amended): every section produced by the section locator
contains at least one record (the distinctness of pool names within a
section, however, is not enforced). -/
theorem claim_C3 (fname : String) (lines : List (List Char)) :
    ∀ sec ∈ (findSections fname lines).1, sec.2 ≠ [] :=
  fun sec h => findAux_sections_ne fname lines [] sec h

/-- Claim C3 (witness). -/
theorem claim_C3_witness :
    (tsVal, [fooRec, fooRec]) ∈ (findSections "log" exDup).1 ∧
      ([fooRec, fooRec] : List PoolRec) ≠ [] :=
  ⟨by decide, claim_C3 "log" exDup (tsVal, [fooRec, fooRec]) (by decide)⟩

/-- Claim C4: every line whose wide-gap split yields 6 to 9 tokens parses as
a short-form record: positions 0..5 (each trimmed) become name, active,
pending, completed, blocked, all_time_blocked, and backpressure, delayed,
shared, stolen are exactly the literal string "0". -/
theorem claim_C4 (line : List Char)
    (h6 : 6 ≤ (wideGapSplit (stripL line)).length)
    (h9 : (wideGapSplit (stripL line)).length ≤ 9) :
    parse_pool_line line =
      some ⟨stripL ((wideGapSplit (stripL line)).getD 0 []),
            stripL ((wideGapSplit (stripL line)).getD 1 []),
            stripL ((wideGapSplit (stripL line)).getD 2 []),
            ['0'], ['0'], ['0'], ['0'],
            stripL ((wideGapSplit (stripL line)).getD 3 []),
            stripL ((wideGapSplit (stripL line)).getD 4 []),
            stripL ((wideGapSplit (stripL line)).getD 5 [])⟩ := by
  have hne : stripL line ≠ [] := by
    intro h
    rw [h] at h6
    simp [wideGapSplit, wgAuxF] at h6
  have hle := wideGap_length_le (stripL line) (stripL_noTrail line) (stripL_headNonWS line hne)
  simp only [parse_pool_line]
  rw [if_neg (by omega), if_neg (by omega), if_neg (by omega)]

/-- Claim C4 (witness): the spec's own scenario line. -/
theorem claim_C4_witness :
    parse_pool_line "CompactionExecutor   0   0   0   1234   0".data =
      some ⟨"CompactionExecutor".data, "0".data, "0".data, "0".data, "0".data, "0".data,
            "0".data, "0".data, "1234".data, "0".data⟩ :=
  (claim_C4 _ (by decide) (by decide)).trans (by decide)

/-- Claim C5: every line whose wide-gap split yields fewer than 6 tokens is
rejected by the row parser. -/
theorem claim_C5 (line : List Char) (h : (wideGapSplit (stripL line)).length < 6) :
    parse_pool_line line = none := by
  simp only [parse_pool_line]
  by_cases hp : (pySplit (stripL line)).length < 6
  · rw [if_pos hp]
  · rw [if_neg hp, if_pos h]

/-- Claim C5 (witness). -/
theorem claim_C5_witness :
    (wideGapSplit (stripL "ab".data)).length < 6 ∧ parse_pool_line "ab".data = none :=
  ⟨by decide, claim_C5 _ (by decide)⟩

/-- Claim C6: backward data collection is used only when the forward scan
yields zero records (when forward collection is nonempty it is the section's
data); and a header immediately preceded by N parseable data lines, with
nothing usable after it (its following `StatusLogger.java` line supplies the
timestamp but parses as no record), emits exactly one section whose N
records appear in original top-to-bottom file order. -/
theorem claim_C6 :
    (∀ (done rest : List (List Char)), collectForward rest ≠ [] →
      collectData done rest = collectForward rest) ∧
    (∀ (fname : String) (ds : List (List Char)) (hd sl t : List Char),
      ds ≠ [] →
      (∀ d ∈ ds, isHeader (stripL d) = false ∧ stopLine (stripL d) = false ∧
        containsSub (stripL d) marker = false ∧ (parse_pool_line (stripL d)).isSome = true) →
      isHeader (stripL hd) = true →
      isHeader (stripL sl) = false →
      containsSub (stripL sl) marker = true →
      extract_timestamp (stripL sl) = some t →
      parse_pool_line (stripL sl) = none →
      findSections fname (ds ++ [hd, sl]) =
        ([(t, ds.filterMap (fun d => parse_pool_line (stripL d)))], []) ∧
      (ds.filterMap (fun d => parse_pool_line (stripL d))).length = ds.length) := by
  constructor
  · intro done rest h
    have hde : (collectForward rest).isEmpty = false := by
      cases hc : collectForward rest with
      | nil => exact absurd hc h
      | cons a as => rfl
    simp [collectData, hde]
  · intro fname ds hd sl t hne hds hhd hsl hmk hext hpar
    have hfm := collectForward_all ds.reverse (fun d hd' => by
      have hd2 : d ∈ ds := List.mem_reverse.mp hd'
      exact ⟨(hds d hd2).2.1, (hds d hd2).2.2.2⟩)
    have hlen := filterMap_parse_length ds (fun d hd' => (hds d hd').2.2.2)
    have hdata : collectData ds.reverse [sl] =
        ds.filterMap (fun d => parse_pool_line (stripL d)) := by
      have hcf : collectForward [sl] = [] := by
        by_cases hstop : stopLine (stripL sl) = true
        · simp [collectForward, hstop]
        · simp [collectForward, hstop, hpar]
      simp only [collectData, hcf, List.isEmpty_nil, if_true]
      rw [hfm, filterMap_parse_reverse, List.reverse_reverse]
    have hndata : collectData ds.reverse [sl] ≠ [] := by
      rw [hdata]
      intro hcon
      have hp : 0 < ds.length := List.length_pos.mpr hne
      rw [← hlen, hcon] at hp
      simp at hp
    have hts : resolveTs ds.reverse [sl] = some t := by
      have hprev : tsPrev ds.reverse = none := by
        cases hrev : ds.reverse with
        | nil => rfl
        | cons q qs =>
          have hq : q ∈ ds := List.mem_reverse.mp (by rw [hrev]; simp)
          simp [tsPrev, (hds q hq).2.2.1]
      unfold resolveTs
      rw [hprev]
      show tsForward (([sl] : List (List Char)).take 9) = some t
      simp [tsForward, hmk, hext]
    constructor
    · unfold findSections
      rw [show ds ++ [hd, sl] = ds ++ ([hd, sl] : List (List Char)) from rfl,
        findAux_append_not_header fname ds [] [hd, sl] (fun d hd' => (hds d hd').1),
        List.append_nil,
        show ([hd, sl] : List (List Char)) = hd :: [sl] from rfl,
        findAux_cons_header_some fname ds.reverse hd [sl] t hhd hts hndata,
        findAux_cons_not_header fname (hd :: ds.reverse) sl [] hsl,
        findAux_nil, hdata]
    · exact hlen

/-- Claim C6 (witness): two data lines above a header whose timestamp comes
from the `StatusLogger.java` line after it. -/
theorem claim_C6_witness :
    findSections "f" ([barLine, fooLine] ++ [hdrLine, slLine]) =
      ([(tsVal, [barRec, fooRec])], []) := by
  have h := (claim_C6.2 "f" [barLine, fooLine] hdrLine slLine tsVal (by decide) (by decide)
    (by decide) (by decide) (by decide) (by decide) (by decide)).1
  exact h.trans (by decide)

/-- Claim C7: a header whose timestamp resolves neither from the preceding
line nor from the forward scan yields no section, emits exactly one
diagnostic naming the file and the 1-based line number of the header, and
the scan continues immediately past the header line. -/
theorem claim_C7 (fname : String) (done : List (List Char)) (l : List Char)
    (rest : List (List Char)) (hh : isHeader (stripL l) = true)
    (hts : resolveTs done rest = none) :
    findAux fname done (l :: rest) =
      ((findAux fname (l :: done) rest).1,
        (fname, done.length + 1) :: (findAux fname (l :: done) rest).2) :=
  findAux_cons_header_none fname done l rest hh hts

/-- Claim C7 (witness): a lone header line produces zero sections and one
diagnostic at line 1. -/
theorem claim_C7_witness :
    findSections "sys.log" [hdrLine] = ([], [("sys.log", 1)]) := by
  have h := claim_C7 "sys.log" [] hdrLine [] (by decide) (by decide)
  exact h.trans (by decide)

/-- Claim C8: in pivot mode there is exactly one data row per section; each
row is the timestamp followed, for every matched name across all sections in
lexicographically sorted order (the name list is sorted, duplicate-free and
holds exactly the names occurring in some section's filtered records), by
the selected metric cells of that name; the header names the columns
`<name>-<MetricName>`; and a name with no record in a section's filtered set
contributes the literal `N/A` for each of its selected metric columns. -/
theorem claim_C8 (sections : List (List Char × List PoolRec)) (targets : List (List Char))
    (cols : List String) :
    (pivotRows sections targets cols).length = sections.length ∧
    pivotRows sections targets cols =
      sections.map (fun sec =>
        sec.1 :: ((allPoolNames sections targets).map
          (segmentFor (filter_pools sec.2 targets) cols)).flatten) ∧
    pivotHeader sections targets cols =
      "timestamp".data :: ((allPoolNames sections targets).map
        (fun n => cols.map (fun c => n ++ ('-' :: c.data)))).flatten ∧
    List.Sorted lexLeP (allPoolNames sections targets) ∧
    (allPoolNames sections targets).Nodup ∧
    (∀ n, n ∈ allPoolNames sections targets ↔
      ∃ sec ∈ sections, ∃ r ∈ filter_pools sec.2 targets, r.pool_name = n) ∧
    (∀ sec ∈ sections, ∀ n, (∀ r ∈ filter_pools sec.2 targets, r.pool_name ≠ n) →
      segmentFor (filter_pools sec.2 targets) cols n =
        List.replicate cols.length "N/A".data) := by
  refine ⟨List.length_map _ _, rfl, rfl, allPoolNames_sorted sections targets,
    allPoolNames_nodup sections targets, allPoolNames_mem sections targets,
    fun sec _ n hn => segmentFor_absent _ cols n hn⟩

/-- Claim C8 (witness): the spec's GossipStage scenario — two sections, the
name appearing in only one; the other section's cells are `N/A`. -/
theorem claim_C8_witness :
    segmentFor (filter_pools [fooRec] ["GossipStage".data]) ["Active", "Pending"]
      "GossipStage".data = ["N/A".data, "N/A".data] ∧
    (pivotRows [(tsVal, [gsRecA]), ("t2".data, [fooRec])] ["GossipStage".data]
      ["Active", "Pending"]).length = 2 := by
  have h := claim_C8 [(tsVal, [gsRecA]), ("t2".data, [fooRec])] ["GossipStage".data]
    ["Active", "Pending"]
  constructor
  · exact (h.2.2.2.2.2.2 ("t2".data, [fooRec]) (by decide) "GossipStage".data
      (by decide)).trans (by decide)
  · exact h.1.trans (by decide)

/-- Claim C9: when a section's filtered record list contains several records
with the same pool name, the dictionary built for the row keeps the last
one, so the emitted row uses the metric values of the last such record and
earlier duplicates contribute nothing. -/
theorem claim_C9 (sec : List Char × List PoolRec) (targets : List (List Char))
    (cols : List String) (names : List (List Char)) (n : List Char)
    (xs ys : List PoolRec) (r : PoolRec)
    (hfp : filter_pools sec.2 targets = xs ++ r :: ys)
    (hr : r.pool_name = n) (hys : ∀ x ∈ ys, x.pool_name ≠ n) :
    segmentFor (filter_pools sec.2 targets) cols n = cols.map (fieldOf r) ∧
    pivotRow names cols targets sec =
      sec.1 :: (names.map (segmentFor (filter_pools sec.2 targets) cols)).flatten := by
  constructor
  · rw [hfp]
    unfold segmentFor
    rw [lookupLastRec_last xs ys r n hr hys]
  · rfl

/-- Claim C9 (witness): two same-named records; the cells come from the
second (last) one. -/
theorem claim_C9_witness :
    segmentFor (filter_pools [gsRecA, gsRecB] ["GossipStage".data]) ["Active"]
      "GossipStage".data = ["2".data] := by
  have h := (claim_C9 (tsVal, [gsRecA, gsRecB]) ["GossipStage".data] ["Active"]
    ["GossipStage".data] "GossipStage".data [gsRecA] [] gsRecB (by decide) (by decide)
    (by decide)).1
  exact h.trans (by decide)

/-- Claim C10: the record filter returns a sublist of its input (order
preserved, records unchanged), is the identity for an empty target list,
and is idempotent. -/
theorem claim_C10 (pool_data : List PoolRec) (targets : List (List Char)) :
    (filter_pools pool_data targets).Sublist pool_data ∧
    filter_pools pool_data [] = pool_data ∧
    filter_pools (filter_pools pool_data targets) targets = filter_pools pool_data targets := by
  refine ⟨?_, rfl, ?_⟩
  · unfold filter_pools
    split
    · exact List.Sublist.refl _
    · exact List.filter_sublist _
  · by_cases ht : targets.isEmpty = true
    · simp [filter_pools, ht]
    · simp only [filter_pools, ht, Bool.false_eq_true, if_false]
      rw [List.filter_filter]
      simp only [Bool.and_self]

end PoolMetrics
